import Mathlib

/-!
Shallow embedding of the duplicate-suppression and delivery-ordering core of
the Polaris Insights Telegram bot (`src/index.js`, the v2.0.0 variant at the
top of the file, which is the one with the id-based processed cache).

Timestamps are epoch milliseconds (`new Date(...).getTime()`), modelled as
`Int`.  File contents are passed explicitly where the JS reads them from
disk; the network send is abstracted as a boolean oracle (`true` iff the
Telegram envelope reports `ok` and no error is thrown).
-/

set_option maxHeartbeats 1000000

namespace PolarisBot

/-- An upstream insight item as fetched from the feed.  Only the fields the
dedup/ordering core of `src/index.js` inspects are modelled: `id`,
`publishedAt`, and the two background fields read at lines 445-449. -/
structure Insight where
  id : String
  publishedAt : Int
  backgroundType : Option String
  backgroundValue : Option String
  deriving Repr, DecidableEq

/-- One entry of the persisted `processedIds` array.  `addProcessedInsight`
(src/index.js 342-346) writes objects `{id, processedAt, ...metadata}`, while
older cache files hold plain string ids; both shapes occur, which is why the
membership predicate branches on `typeof item === 'string'`. -/
inductive ProcessedEntry where
  | str (s : String)
  | obj (id : String) (processedAt : Int) (meta : Option (String × String))
  deriving Repr, DecidableEq

/-- The per-entry test shared by `isInsightProcessed` (src/index.js 316-318)
and `addProcessedInsight` (336-338):
`typeof item === 'string' ? item === insightId : item.id === insightId`. -/
def entryMatches (item : ProcessedEntry) (insightId : String) : Bool :=
  match item with
  | .str s => s == insightId
  | .obj id _ _ => id == insightId

/-- The membership check `isInsightProcessed` (src/index.js 314-319), with the cache contents
passed explicitly (the JS reads them from disk via `readProcessedIds`). -/
def isInsightProcessed (processedInsights : List ProcessedEntry) (insightId : String) : Bool :=
  processedInsights.any (fun item => entryMatches item insightId)

/-- The bounding step of `writeProcessedIds` (src/index.js 291):
`processedIds.slice(-MAX_PROCESSED_IDS)`.  JS `slice(-0)` is `slice(0)` (the
whole array); `slice(-M)` for `M > 0` keeps the last `min M length`
elements. -/
def writeProcessedIds {α : Type} (M : Nat) (processedIds : List α) : List α :=
  if M = 0 then processedIds else processedIds.drop (processedIds.length - M)

/-- The mark-processed operation `addProcessedInsight` (src/index.js 334-350): look the id up with the same
predicate as `isInsightProcessed` (`findIndex(...) === -1` is exactly the
negation of `some(...)`); when absent, push `{id, processedAt: now,
...metadata}` and persist through `writeProcessedIds`; when already present,
do nothing at all (no write happens). -/
def addProcessedInsight (M : Nat) (now : Int) (processedInsights : List ProcessedEntry)
    (insightId : String) (metadata : Option (String × String)) : List ProcessedEntry :=
  if isInsightProcessed processedInsights insightId then processedInsights
  else writeProcessedIds M (processedInsights ++ [.obj insightId now metadata])

/-- Number of cache entries matching a given id (used to state the
duplicate-identifier guard). -/
def countMatching (processedInsights : List ProcessedEntry) (insightId : String) : Nat :=
  (processedInsights.filter (fun item => entryMatches item insightId)).length

/-- The minimum-age test of `processNewPublishedInsights` (src/index.js
393-404): `ageMs = now - publishedAt; isOldEnough = ageMs >= minAgeMs`. -/
def isOldEnough (now minAgeMs : Int) (insight : Insight) : Bool :=
  decide (now - insight.publishedAt ≥ minAgeMs)

/-- The secondary timestamp-cache check (src/index.js 419-430): when the
checkpoint file holds a `publishedAt`, skip items whose `publishedAt` is
strictly older (`insightDate < cachedDate`). -/
def skipByCheckpoint (checkpoint : Option Int) (insight : Insight) : Bool :=
  match checkpoint with
  | some cachedPublishedAt => decide (insight.publishedAt < cachedPublishedAt)
  | none => false

/-- The combined keep/skip decision of the two `continue` guards inside the
per-item loop (src/index.js 413-430): an eligible item reaches the
`sendMessage` call iff neither guard fires. -/
def keptForDelivery (processed : List ProcessedEntry) (checkpoint : Option Int)
    (insight : Insight) : Bool :=
  !(isInsightProcessed processed insight.id) && !(skipByCheckpoint checkpoint insight)

/-- Modelled from the spec words of section 4.3 step 3, for comparison with
`keptForDelivery`: keep iff the membership check is false AND (checkpoint
unset OR the item publication timestamp is strictly greater than the
checkpoint). -/
def keptForDeliverySpecStated (processed : List ProcessedEntry) (checkpoint : Option Int)
    (insight : Insight) : Bool :=
  !(isInsightProcessed processed insight.id) &&
    (match checkpoint with
     | some cachedPublishedAt => decide (cachedPublishedAt < insight.publishedAt)
     | none => true)

/-- Background metadata recorded on a successful send (src/index.js 445-449):
only set when both `backgroundType` and `backgroundValue` are present. -/
def metaOf (insight : Insight) : Option (String × String) :=
  match insight.backgroundType, insight.backgroundValue with
  | some bt, some bv => some (bt, bv)
  | _, _ => none

/-- Observable actions of one run, in order: a call to `sendMessage`
(`attempt`), a send whose envelope came back ok (`delivered`), and the
one-second rate-limit sleep (`delay`). -/
inductive Event where
  | attempt (id : String)
  | delivered (id : String)
  | delay
  deriving Repr, DecidableEq

/-- State threaded through the per-item loop of
`processNewPublishedInsights`: the processed-ids cache file, the
`publishedAt` field of the timestamp-checkpoint file, the `processedCount`
counter, and the trace of observable events. -/
structure RunState where
  processed : List ProcessedEntry
  checkpoint : Option Int
  sentCount : Nat
  events : List Event
  deriving Repr, DecidableEq

/-- One iteration of the `for (const insight of eligibleInsights)` loop
(src/index.js 410-476).  `send` abstracts `sendMessage`: `true` iff the
Telegram response has `ok`; a thrown error or an `ok: false` envelope is the
`false` case, which lands in the per-item `catch` that just continues.  On
success the id cache and the timestamp cache are both updated,
`processedCount` is incremented, and the rate-limit sleep runs iff
`processedCount < eligibleInsights.length`. -/
def processOne (send : Insight → Bool) (now : Int) (M totalEligible : Nat)
    (s : RunState) (insight : Insight) : RunState :=
  if isInsightProcessed s.processed insight.id then s
  else if skipByCheckpoint s.checkpoint insight then s
  else if send insight then
    { processed := addProcessedInsight M now s.processed insight.id (metaOf insight)
      checkpoint := some insight.publishedAt
      sentCount := s.sentCount + 1
      events :=
        if s.sentCount + 1 < totalEligible then
          s.events ++ [Event.attempt insight.id, Event.delivered insight.id, Event.delay]
        else
          s.events ++ [Event.attempt insight.id, Event.delivered insight.id] }
  else
    { s with events := s.events ++ [Event.attempt insight.id] }

/-- The pipeline `processNewPublishedInsights` (src/index.js 365-482) after a successful
fetch: reverse the newest-first feed to oldest-first, apply the minimum-age
filter, then run the per-item loop from the given initial cache state with
`processedCount = 0`. -/
def processNewPublishedInsights (send : Insight → Bool) (now minAgeMs : Int) (M : Nat)
    (processed0 : List ProcessedEntry) (checkpoint0 : Option Int)
    (insights : List Insight) : RunState :=
  (insights.reverse.filter (isOldEnough now minAgeMs)).foldl
    (processOne send now M (insights.reverse.filter (isOldEnough now minAgeMs)).length)
    { processed := processed0, checkpoint := checkpoint0, sentCount := 0, events := [] }

/-- The ids of the `sendMessage` calls in a trace, in order. -/
def attemptsOf (events : List Event) : List String :=
  events.filterMap (fun e => match e with | .attempt id => some id | _ => none)

/-- The ids of the successful sends in a trace, in order. -/
def deliveredOf (events : List Event) : List String :=
  events.filterMap (fun e => match e with | .delivered id => some id | _ => none)

/-- Marking a sequence of identifiers processed one after the other starting
from an empty cache, each with empty metadata — the scenario of the
bounded-growth property. -/
def markAll (M : Nat) (now : Int) (ids : List String) : List ProcessedEntry :=
  ids.foldl (fun acc id => addProcessedInsight M now acc id none) []

/-- The shape of a parsed cache document, covering the fields the bot reads:
`processedIds` (present iff the stored value is an array, mirroring the
`Array.isArray` check of `readProcessedIds`) and `publishedAt` of the
timestamp checkpoint. -/
structure CacheDoc where
  processedIds : Option (List ProcessedEntry)
  publishedAt : Option Int
  deriving Repr, DecidableEq

/-- The empty object `{}` returned by every error branch of `readCache`. -/
def emptyCacheDoc : CacheDoc := { processedIds := none, publishedAt := none }

/-- What the cache file on disk can look like from `readCache`'s point of
view: absent (`existsSync` false), unreadable (`readFileSync` throws),
malformed (`JSON.parse` throws), or valid JSON. -/
inductive FileState where
  | missing
  | unreadable
  | malformed
  | valid (doc : CacheDoc)
  deriving Repr, DecidableEq

/-- The loader `readCache` (src/index.js 164-185): return `{}` when the file does not
exist, and the `catch` around `readFileSync`/`JSON.parse` also returns `{}`,
so the function is total — it never propagates an exception. -/
def readCache (fs : FileState) : CacheDoc :=
  match fs with
  | .missing => emptyCacheDoc
  | .unreadable => emptyCacheDoc
  | .malformed => emptyCacheDoc
  | .valid doc => doc

/-- The loader `readProcessedIds` (src/index.js 268-276): read the cache document and
return `data.processedIds` when it is an array, `[]` otherwise. -/
def readProcessedIds (fs : FileState) : List ProcessedEntry :=
  match (readCache fs).processedIds with
  | some l => l
  | none => []

/-- A fresh processed-cache object entry for a given id. -/
def objify (now : Int) (id : String) : ProcessedEntry := .obj id now none

/-- The string-level shadow of one `addProcessedInsight` step. -/
def stepStr (M : Nat) (acc : List String) (id : String) : List String :=
  if acc.any (fun d => d == id) then acc else writeProcessedIds M (acc ++ [id])

/-- An insight with only id and publication timestamp set, used for concrete
instances. -/
def mkInsight (insightId : String) (publishedAt : Int) : Insight :=
  { id := insightId, publishedAt := publishedAt,
    backgroundType := none, backgroundValue := none }

/-! ## Helper lemmas -/

theorem mem_writeProcessedIds {α : Type} {M : Nat} {l : List α} {x : α}
    (h : x ∈ writeProcessedIds M l) : x ∈ l := by
  unfold writeProcessedIds at h
  split at h
  · exact h
  · exact List.mem_of_mem_drop h

theorem isInsightProcessed_writeProcessedIds_false {M : Nat} {l : List ProcessedEntry}
    {id : String} (h : isInsightProcessed l id = false) :
    isInsightProcessed (writeProcessedIds M l) id = false := by
  simp only [isInsightProcessed, List.any_eq_false] at h ⊢
  intro x hx
  exact h x (mem_writeProcessedIds hx)

theorem writeProcessedIds_of_le {α : Type} {M : Nat} {l : List α}
    (h : l.length ≤ M) : writeProcessedIds M l = l := by
  unfold writeProcessedIds
  split
  · rfl
  · have h0 : l.length - M = 0 := by omega
    rw [h0, List.drop_zero]

theorem writeProcessedIds_singleton {α : Type} (M : Nat) (x : α) :
    writeProcessedIds M [x] = [x] := by
  unfold writeProcessedIds
  split
  · rfl
  · rename_i hM
    have h0 : ([x] : List α).length - M = 0 := by
      simp only [List.length_singleton]
      omega
    rw [h0, List.drop_zero]

theorem length_writeProcessedIds_le {α : Type} {M : Nat} (hM : 1 ≤ M)
    (l : List α) : (writeProcessedIds M l).length ≤ M := by
  unfold writeProcessedIds
  split
  · omega
  · rw [List.length_drop]
    omega

/-- Re-bounding after appending one element is the same as bounding the whole
appended list: `slice(-M)` is stable under this iteration pattern. -/
theorem writeProcessedIds_append_single {α : Type} (M : Nat) (l : List α) (x : α) :
    writeProcessedIds M (writeProcessedIds M l ++ [x]) = writeProcessedIds M (l ++ [x]) := by
  by_cases hM : M = 0
  · simp [writeProcessedIds, hM]
  by_cases hlen : l.length ≤ M
  · rw [writeProcessedIds_of_le hlen]
  · have hMl : M < l.length := by omega
    simp only [writeProcessedIds, if_neg hM]
    have hdlen : (l.drop (l.length - M)).length = M := by
      rw [List.length_drop]; omega
    have h1 : (l.drop (l.length - M) ++ [x]).length - M = 1 := by
      simp only [List.length_append, hdlen, List.length_singleton]; omega
    have h2 : (l ++ [x]).length - M = (l.length - M) + 1 := by
      simp only [List.length_append, List.length_singleton]; omega
    rw [h1, h2]
    rw [List.drop_append_of_le_length (by omega : l.length - M + 1 ≤ l.length)]
    rw [List.drop_append_of_le_length (by rw [hdlen]; omega : 1 ≤ (l.drop (l.length - M)).length)]
    rw [List.drop_drop]

theorem isInsightProcessed_map_objify (now : Int) (done : List String) (id : String) :
    isInsightProcessed (done.map (objify now)) id = done.any (fun d => d == id) := by
  induction done with
  | nil => rfl
  | cons d rest ih =>
    show (entryMatches (objify now d) id || isInsightProcessed (rest.map (objify now)) id)
        = ((d == id) || rest.any (fun d => d == id))
    rw [ih]
    rfl

theorem map_writeProcessedIds {α β : Type} (f : α → β) (M : Nat) (l : List α) :
    (writeProcessedIds M l).map f = writeProcessedIds M (l.map f) := by
  unfold writeProcessedIds
  split
  · rfl
  · rw [List.map_drop, List.length_map]

theorem addProcessedInsight_objify (M : Nat) (now : Int) (done : List String) (id : String) :
    addProcessedInsight M now (done.map (objify now)) id none
      = (stepStr M done id).map (objify now) := by
  unfold addProcessedInsight stepStr
  rw [isInsightProcessed_map_objify]
  split
  · rfl
  · rw [map_writeProcessedIds, List.map_append]
    rfl

theorem foldl_addProcessedInsight_objify (M : Nat) (now : Int) :
    ∀ (ids done : List String),
      ids.foldl (fun acc id => addProcessedInsight M now acc id none) (done.map (objify now))
        = (ids.foldl (stepStr M) done).map (objify now) := by
  intro ids
  induction ids with
  | nil => intro done; rfl
  | cons id rest ih =>
    intro done
    rw [List.foldl_cons, List.foldl_cons, addProcessedInsight_objify]
    exact ih (stepStr M done id)

theorem foldl_stepStr (M : Nat) :
    ∀ (rest pre : List String), (pre ++ rest).Nodup →
      rest.foldl (stepStr M) (writeProcessedIds M pre) = writeProcessedIds M (pre ++ rest) := by
  intro rest
  induction rest with
  | nil =>
    intro pre _
    rw [List.foldl_nil, List.append_nil]
  | cons id rest ih =>
    intro pre hnd
    have hid : id ∉ pre := by
      rw [List.nodup_append] at hnd
      exact fun hmem => hnd.2.2 hmem (List.mem_cons_self id rest)
    have hguard : (writeProcessedIds M pre).any (fun d => d == id) = false := by
      rw [List.any_eq_false]
      intro d hd
      have hdp : d ∈ pre := mem_writeProcessedIds hd
      have hne : d ≠ id := fun h => hid (h ▸ hdp)
      simp [hne]
    have hstep : stepStr M (writeProcessedIds M pre) id
        = writeProcessedIds M (pre ++ [id]) := by
      unfold stepStr
      rw [hguard]
      show writeProcessedIds M (writeProcessedIds M pre ++ [id])
          = writeProcessedIds M (pre ++ [id])
      exact writeProcessedIds_append_single M pre id
    rw [List.foldl_cons, hstep]
    have hnd' : ((pre ++ [id]) ++ rest).Nodup := by
      rw [List.append_assoc]
      exact hnd
    rw [ih (pre ++ [id]) hnd', List.append_assoc]
    rfl

/-- Folding `markAll` over distinct ids keeps the bounded suffix of the ids, objified. -/
theorem markAll_eq (M : Nat) (now : Int) (ids : List String) (hnd : ids.Nodup) :
    markAll M now ids = (writeProcessedIds M ids).map (objify now) := by
  unfold markAll
  have h0 : ([] : List ProcessedEntry) = ([] : List String).map (objify now) := rfl
  rw [h0, foldl_addProcessedInsight_objify]
  have hpre : writeProcessedIds M ([] : List String) = [] := by
    unfold writeProcessedIds; split <;> simp
  rw [show ([] : List String) = writeProcessedIds M ([] : List String) from hpre.symm]
  rw [foldl_stepStr M ids [] (by simpa using hnd)]
  simp

/-! ## Claim theorems -/

/-- C7: an item passes the age filter of `processNewPublishedInsights` iff
`now - publishedAt >= minAgeMs`; age exactly at the threshold is eligible and
age strictly below it is excluded. -/
theorem minimum_age_boundary (now minAgeMs : Int) (insight : Insight) (l : List Insight) :
    (insight ∈ l.filter (isOldEnough now minAgeMs) ↔
      insight ∈ l ∧ now - insight.publishedAt ≥ minAgeMs) ∧
    (now - insight.publishedAt = minAgeMs → isOldEnough now minAgeMs insight = true) ∧
    (now - insight.publishedAt < minAgeMs → isOldEnough now minAgeMs insight = false) := by
  refine ⟨?_, ?_, ?_⟩
  · simp [List.mem_filter, isOldEnough]
  · intro h; simp [isOldEnough]; omega
  · intro h; simp [isOldEnough]; omega

theorem minimum_age_boundary_witness :
    isOldEnough 10 10 (mkInsight "a" 0) = true ∧
    isOldEnough 9 10 (mkInsight "a" 0) = false := by
  constructor
  · exact (minimum_age_boundary 10 10 (mkInsight "a" 0) []).2.1 (by decide)
  · exact (minimum_age_boundary 9 10 (mkInsight "a" 0) []).2.2 (by decide)

/-- C9: `readCache` is total and every error branch (missing file, unreadable
file, malformed JSON) yields the empty object, so `readProcessedIds` yields
`[]` on those inputs, and also when the stored `processedIds` is not an
array. -/
theorem readCache_error_yields_empty :
    (readCache .missing = emptyCacheDoc ∧
     readCache .unreadable = emptyCacheDoc ∧
     readCache .malformed = emptyCacheDoc) ∧
    (readProcessedIds .missing = [] ∧
     readProcessedIds .unreadable = [] ∧
     readProcessedIds .malformed = []) ∧
    (∀ pa : Option Int,
      readProcessedIds (.valid { processedIds := none, publishedAt := pa }) = []) := by
  exact ⟨⟨rfl, rfl, rfl⟩, ⟨rfl, rfl, rfl⟩, fun _ => rfl⟩

/-- C10: the membership check accepts both persisted formats — it is true
exactly when the set holds the plain string `id` or an object entry whose
`id` field is `id`, so legacy string-only entries still suppress
duplicates. -/
theorem isInsightProcessed_accepts_both_formats (l : List ProcessedEntry) (id : String) :
    isInsightProcessed l id = true ↔
      (ProcessedEntry.str id ∈ l ∨
        ∃ t : Int, ∃ meta : Option (String × String), ProcessedEntry.obj id t meta ∈ l) := by
  simp only [isInsightProcessed, List.any_eq_true]
  constructor
  · rintro ⟨e, he, hm⟩
    cases e with
    | str s =>
      simp only [entryMatches, beq_iff_eq] at hm
      exact Or.inl (hm ▸ he)
    | obj eid t meta =>
      simp only [entryMatches, beq_iff_eq] at hm
      exact Or.inr ⟨t, meta, hm ▸ he⟩
  · rintro (hs | ⟨t, meta, ho⟩)
    · exact ⟨ProcessedEntry.str id, hs, by simp [entryMatches]⟩
    · exact ⟨ProcessedEntry.obj id t meta, ho, by simp [entryMatches]⟩

/-- C3 counterexample: an unprocessed item whose publication timestamp equals
the checkpoint is kept by the code (the guard skips only strictly older
items), whereas the claimed strictly-greater rule would exclude it. -/
theorem checkpoint_equality_kept_counterexample :
    keptForDelivery [] (some 5) (mkInsight "x" 5) = true ∧
    keptForDeliverySpecStated [] (some 5) (mkInsight "x" 5) = false := by
  decide

/-- C3 amended: an eligible item is kept for delivery iff the membership
check on its id is false AND (the checkpoint is unset OR the item publication
timestamp is greater than or equal to the checkpoint); in particular an
unprocessed item whose timestamp equals the checkpoint is kept. -/
theorem keptForDelivery_characterization (processed : List ProcessedEntry)
    (checkpoint : Option Int) (insight : Insight) :
    keptForDelivery processed checkpoint insight = true ↔
      (isInsightProcessed processed insight.id = false ∧
        (checkpoint = none ∨
          ∃ t : Int, checkpoint = some t ∧ t ≤ insight.publishedAt)) := by
  cases checkpoint with
  | none => simp [keptForDelivery, skipByCheckpoint]
  | some t =>
    simp only [keptForDelivery, skipByCheckpoint, Bool.and_eq_true, Bool.not_eq_true']
    constructor
    · rintro ⟨h1, h2⟩
      simp only [decide_eq_false_iff_not, not_lt] at h2
      exact ⟨h1, Or.inr ⟨t, rfl, h2⟩⟩
    · rintro ⟨h1, h2⟩
      refine ⟨h1, ?_⟩
      rcases h2 with h2 | ⟨t', ht', hle⟩
      · exact absurd h2 (by simp)
      · cases Option.some.inj ht'
        simp only [decide_eq_false_iff_not, not_lt]
        exact hle

/-- C4: `addProcessedInsight` is idempotent — an already-present id leaves
the persisted set untouched (still exactly one matching entry); a new id
appends `{id, processedAt, ...metadata}` and persists through the
`slice(-M)` truncation of `writeProcessedIds`. -/
theorem addProcessedInsight_idempotent (M : Nat) (now : Int) (l : List ProcessedEntry)
    (id : String) (meta : Option (String × String)) :
    (isInsightProcessed l id = true → addProcessedInsight M now l id meta = l) ∧
    (isInsightProcessed l id = true → countMatching l id = 1 →
      countMatching (addProcessedInsight M now l id meta) id = 1) ∧
    (isInsightProcessed l id = false →
      addProcessedInsight M now l id meta
        = writeProcessedIds M (l ++ [ProcessedEntry.obj id now meta])) := by
  refine ⟨?_, ?_, ?_⟩
  · intro h
    unfold addProcessedInsight
    rw [h]
    rfl
  · intro h hcount
    unfold addProcessedInsight
    rw [h]
    exact hcount
  · intro h
    unfold addProcessedInsight
    rw [h]
    rfl

theorem addProcessedInsight_idempotent_witness :
    addProcessedInsight 3 7 [ProcessedEntry.obj "a" 0 none] "a" none
      = [ProcessedEntry.obj "a" 0 none] ∧
    countMatching (addProcessedInsight 3 7 [ProcessedEntry.obj "a" 0 none] "a" none) "a" = 1 := by
  refine ⟨?_, ?_⟩
  · exact (addProcessedInsight_idempotent 3 7 [ProcessedEntry.obj "a" 0 none] "a" none).1
      (by decide)
  · exact (addProcessedInsight_idempotent 3 7 [ProcessedEntry.obj "a" 0 none] "a" none).2.1
      (by decide) (by decide)

/-- C5: starting from an empty cache, marking `M + 5` distinct identifiers
processed leaves exactly `M` persisted entries — the `M` most recently
marked ones in insertion order (the oldest five are evicted) — and every
`writeProcessedIds` write keeps at most `M` entries. -/
theorem processed_set_bounded (M : Nat) (hM : 1 ≤ M) (now : Int) (ids : List String)
    (hnd : ids.Nodup) (hlen : ids.length = M + 5) :
    markAll M now ids = (ids.drop 5).map (objify now) ∧
    (markAll M now ids).length = M ∧
    ∀ l : List ProcessedEntry, (writeProcessedIds M l).length ≤ M := by
  have hM0 : ¬ M = 0 := by omega
  have hmark : markAll M now ids = (writeProcessedIds M ids).map (objify now) :=
    markAll_eq M now ids hnd
  have hw : writeProcessedIds (α := String) M ids = ids.drop 5 := by
    unfold writeProcessedIds
    rw [if_neg hM0, hlen]
    congr 1
    omega
  refine ⟨?_, ?_, ?_⟩
  · rw [hmark, hw]
  · rw [hmark, hw, List.length_map, List.length_drop, hlen]
    omega
  · intro l
    exact length_writeProcessedIds_le hM l

theorem processed_set_bounded_witness :
    markAll 2 9 ["a", "b", "c", "d", "e", "f", "g"]
      = [ProcessedEntry.obj "f" 9 none, ProcessedEntry.obj "g" 9 none] ∧
    (markAll 2 9 ["a", "b", "c", "d", "e", "f", "g"]).length = 2 := by
  have h := processed_set_bounded 2 (by decide) 9 ["a", "b", "c", "d", "e", "f", "g"]
    (by decide) (by decide)
  exact ⟨h.1.trans (by decide), h.2.1⟩

theorem foldl_processOne_all_processed (send : Insight → Bool) (now : Int) (M T : Nat) :
    ∀ (l : List Insight) (s : RunState),
      (∀ i ∈ l, isInsightProcessed s.processed i.id = true) →
      l.foldl (processOne send now M T) s = s := by
  intro l
  induction l with
  | nil => intro s _; rfl
  | cons i rest ih =>
    intro s h
    have hi : isInsightProcessed s.processed i.id = true := h i (List.mem_cons_self i rest)
    have hone : processOne send now M T s i = s := by
      unfold processOne
      rw [hi]
      rfl
    rw [List.foldl_cons, hone]
    exact ih s (fun j hj => h j (List.mem_cons_of_mem i hj))

/-- C1: a run against a feed all of whose item ids are already in the
processed set delivers nothing — every item is skipped by the id check
before any `sendMessage` call, so the trace is empty and both caches are
left untouched. -/
theorem second_run_delivers_nothing (send : Insight → Bool) (now minAgeMs : Int) (M : Nat)
    (processed0 : List ProcessedEntry) (checkpoint0 : Option Int) (feed : List Insight)
    (h : ∀ i ∈ feed, isInsightProcessed processed0 i.id = true) :
    processNewPublishedInsights send now minAgeMs M processed0 checkpoint0 feed
      = { processed := processed0, checkpoint := checkpoint0,
          sentCount := 0, events := [] } := by
  unfold processNewPublishedInsights
  apply foldl_processOne_all_processed
  intro i hi
  exact h i (List.mem_reverse.mp (List.mem_of_mem_filter hi))

theorem second_run_delivers_nothing_witness :
    processNewPublishedInsights (fun _ => true) 100 10 200
        [ProcessedEntry.str "a", ProcessedEntry.obj "b" 3 none] (some 5)
        [mkInsight "b" 2, mkInsight "a" 1]
      = { processed := [ProcessedEntry.str "a", ProcessedEntry.obj "b" 3 none],
          checkpoint := some 5, sentCount := 0, events := [] } :=
  second_run_delivers_nothing (fun _ => true) 100 10 200
    [ProcessedEntry.str "a", ProcessedEntry.obj "b" 3 none] (some 5)
    [mkInsight "b" 2, mkInsight "a" 1] (by decide)

/-- C8 counterexample: two eligible items, the first send fails, the second
succeeds.  The trace shows the two attempts back to back with no delay
between them (the delay instead lands after the successful second send,
because `processedCount` counts only successes), refuting the claim that the
delay runs after every attempt when items remain. -/
theorem no_delay_between_attempts_counterexample :
    (processNewPublishedInsights (fun i => i.id == "b") 100 0 200 [] none
        [mkInsight "b" 2, mkInsight "a" 1]).events
      = [Event.attempt "a", Event.attempt "b", Event.delivered "b", Event.delay] ∧
    (processNewPublishedInsights (fun i => i.id == "b") 100 0 200 [] none
        [mkInsight "b" 2, mkInsight "a" 1]).events.take 2
      = [Event.attempt "a", Event.attempt "b"] := by
  decide

/-- C8 amended: the inter-message delay is executed only after a successful
send, and then only when the number of successes so far is below the
eligible-batch size; after a failed attempt the next item is processed
immediately, with no delay. -/
theorem delay_only_after_successful_send (send : Insight → Bool) (now : Int)
    (M totalEligible : Nat) (s : RunState) (insight : Insight) :
    (keptForDelivery s.processed s.checkpoint insight = false →
      processOne send now M totalEligible s insight = s) ∧
    (keptForDelivery s.processed s.checkpoint insight = true → send insight = false →
      (processOne send now M totalEligible s insight).events
        = s.events ++ [Event.attempt insight.id]) ∧
    (keptForDelivery s.processed s.checkpoint insight = true → send insight = true →
      s.sentCount + 1 < totalEligible →
      (processOne send now M totalEligible s insight).events
        = s.events ++ [Event.attempt insight.id, Event.delivered insight.id, Event.delay]) ∧
    (keptForDelivery s.processed s.checkpoint insight = true → send insight = true →
      ¬ s.sentCount + 1 < totalEligible →
      (processOne send now M totalEligible s insight).events
        = s.events ++ [Event.attempt insight.id, Event.delivered insight.id]) := by
  refine ⟨?_, ?_, ?_, ?_⟩
  · intro hk
    unfold processOne
    cases h1 : isInsightProcessed s.processed insight.id
    · cases h2 : skipByCheckpoint s.checkpoint insight
      · exfalso
        simp [keptForDelivery, h1, h2] at hk
      · simp [h1, h2]
    · simp [h1]
  · intro hk hs
    simp only [keptForDelivery, Bool.and_eq_true, Bool.not_eq_true'] at hk
    unfold processOne
    simp [hk.1, hk.2, hs]
  · intro hk hs hlt
    simp only [keptForDelivery, Bool.and_eq_true, Bool.not_eq_true'] at hk
    unfold processOne
    simp [hk.1, hk.2, hs, hlt]
  · intro hk hs hge
    simp only [keptForDelivery, Bool.and_eq_true, Bool.not_eq_true'] at hk
    unfold processOne
    simp [hk.1, hk.2, hs, hge]

theorem delay_only_after_successful_send_witness :
    (processOne (fun _ => false) 0 200 2
        { processed := [], checkpoint := none, sentCount := 0, events := [] }
        (mkInsight "b" 1)).events
      = [Event.attempt "b"] :=
  (delay_only_after_successful_send (fun _ => false) 0 200 2
      { processed := [], checkpoint := none, sentCount := 0, events := [] }
      (mkInsight "b" 1)).2.1 (by decide) (by decide)

theorem attemptsOf_processOne (send : Insight → Bool) (now : Int) (M T : Nat)
    (s : RunState) (i : Insight) :
    attemptsOf (processOne send now M T s i).events
      = attemptsOf s.events ++
          (if keptForDelivery s.processed s.checkpoint i then [i.id] else []) := by
  unfold processOne
  cases h1 : isInsightProcessed s.processed i.id
  · cases h2 : skipByCheckpoint s.checkpoint i
    · cases h3 : send i
      · simp [keptForDelivery, h1, h2, h3, attemptsOf, List.filterMap_append]
      · by_cases h4 : s.sentCount + 1 < T <;>
          simp [keptForDelivery, h1, h2, h3, h4, attemptsOf, List.filterMap_append]
    · simp [keptForDelivery, h1, h2]
  · simp [keptForDelivery, h1]

theorem checkpoint_processOne (send : Insight → Bool) (now : Int) (M T : Nat)
    (s : RunState) (i : Insight) :
    (processOne send now M T s i).checkpoint = s.checkpoint ∨
    (processOne send now M T s i).checkpoint = some i.publishedAt := by
  unfold processOne
  cases h1 : isInsightProcessed s.processed i.id
  · cases h2 : skipByCheckpoint s.checkpoint i
    · cases h3 : send i
      · left; simp [h1, h2, h3]
      · right; simp [h1, h2, h3]
    · left; simp [h1, h2]
  · left; simp [h1]

theorem isInsightProcessed_processOne (send : Insight → Bool) (now : Int) (M T : Nat)
    (s : RunState) (i : Insight) (insightId : String)
    (h : isInsightProcessed (processOne send now M T s i).processed insightId = true) :
    isInsightProcessed s.processed insightId = true ∨ insightId = i.id := by
  unfold processOne at h
  cases h1 : isInsightProcessed s.processed i.id
  · cases h2 : skipByCheckpoint s.checkpoint i
    · cases h3 : send i
      · rw [h1, h2, h3] at h
        simp only [Bool.false_eq_true, if_false] at h
        exact Or.inl h
      · rw [h1, h2, h3] at h
        simp only [Bool.false_eq_true, if_false, if_true] at h
        unfold addProcessedInsight at h
        rw [h1] at h
        simp only [Bool.false_eq_true, if_false] at h
        simp only [isInsightProcessed, List.any_eq_true] at h ⊢
        obtain ⟨e, he, hm⟩ := h
        have he' : e ∈ s.processed ++ [ProcessedEntry.obj i.id now (metaOf i)] :=
          mem_writeProcessedIds he
        rcases List.mem_append.mp he' with hl | hr
        · exact Or.inl ⟨e, hl, hm⟩
        · right
          have heq : e = ProcessedEntry.obj i.id now (metaOf i) := by simpa using hr
          rw [heq] at hm
          simp only [entryMatches, beq_iff_eq] at hm
          exact hm.symm
    · rw [h1, h2] at h
      simp only [Bool.false_eq_true, if_false, if_true] at h
      exact Or.inl h
  · rw [h1] at h
    simp only [if_true] at h
    exact Or.inl h

/-- C2: with the feed returned newest-first as `[T3, T2, T1]` (publication
timestamps `T1 < T2 < T3`), all three items old enough and none processed
yet, the pipeline reverses the batch and calls `sendMessage` in the order
`T1, T2, T3`, whatever the send outcomes are. -/
theorem deliveries_in_publication_order (send : Insight → Bool) (now minAgeMs : Int)
    (M : Nat) (i1 i2 i3 : Insight)
    (h12 : i1.publishedAt < i2.publishedAt) (h23 : i2.publishedAt < i3.publishedAt)
    (hage : now - i3.publishedAt ≥ minAgeMs)
    (hne12 : i1.id ≠ i2.id) (hne13 : i1.id ≠ i3.id) (hne23 : i2.id ≠ i3.id) :
    attemptsOf (processNewPublishedInsights send now minAgeMs M [] none
        [i3, i2, i1]).events
      = [i1.id, i2.id, i3.id] := by
  have e1 : isOldEnough now minAgeMs i1 = true := by
    simp only [isOldEnough, ge_iff_le, decide_eq_true_eq]
    omega
  have e2 : isOldEnough now minAgeMs i2 = true := by
    simp only [isOldEnough, ge_iff_le, decide_eq_true_eq]
    omega
  have e3 : isOldEnough now minAgeMs i3 = true := by
    simp only [isOldEnough, ge_iff_le, decide_eq_true_eq]
    omega
  have hfil : (([i3, i2, i1] : List Insight).reverse.filter (isOldEnough now minAgeMs))
      = [i1, i2, i3] := by
    simp [e1, e2, e3]
  unfold processNewPublishedInsights
  rw [hfil]
  rw [List.foldl_cons, List.foldl_cons, List.foldl_cons, List.foldl_nil]
  have k1 : keptForDelivery
      (RunState.mk [] none 0 []).processed (RunState.mk [] none 0 []).checkpoint i1 = true := by
    simp [keptForDelivery, isInsightProcessed, skipByCheckpoint]
  have hproc1 : ∀ insightId,
      isInsightProcessed
        (processOne send now M ([i1, i2, i3] : List Insight).length
          (RunState.mk [] none 0 []) i1).processed insightId = true →
      insightId = i1.id := by
    intro insightId h
    rcases isInsightProcessed_processOne send now M _ (RunState.mk [] none 0 []) i1 insightId h
      with h | h
    · exfalso
      simp [isInsightProcessed] at h
    · exact h
  have hcp1 :
      (processOne send now M ([i1, i2, i3] : List Insight).length
        (RunState.mk [] none 0 []) i1).checkpoint = none ∨
      (processOne send now M ([i1, i2, i3] : List Insight).length
        (RunState.mk [] none 0 []) i1).checkpoint = some i1.publishedAt := by
    simpa using checkpoint_processOne send now M _ (RunState.mk [] none 0 []) i1
  have k2 : keptForDelivery
      (processOne send now M ([i1, i2, i3] : List Insight).length
        (RunState.mk [] none 0 []) i1).processed
      (processOne send now M ([i1, i2, i3] : List Insight).length
        (RunState.mk [] none 0 []) i1).checkpoint i2 = true := by
    unfold keptForDelivery
    have hp : isInsightProcessed
        (processOne send now M ([i1, i2, i3] : List Insight).length
          (RunState.mk [] none 0 []) i1).processed i2.id = false := by
      cases hh : isInsightProcessed
          (processOne send now M ([i1, i2, i3] : List Insight).length
            (RunState.mk [] none 0 []) i1).processed i2.id
      · rfl
      · exact absurd (hproc1 i2.id hh) (Ne.symm hne12)
    have hsk : skipByCheckpoint
        (processOne send now M ([i1, i2, i3] : List Insight).length
          (RunState.mk [] none 0 []) i1).checkpoint i2 = false := by
      rcases hcp1 with h | h
      · rw [h]; rfl
      · rw [h]
        simp only [skipByCheckpoint, decide_eq_false_iff_not, not_lt]
        omega
    rw [hp, hsk]
    rfl
  have hproc2 : ∀ insightId,
      isInsightProcessed
        (processOne send now M ([i1, i2, i3] : List Insight).length
          (processOne send now M ([i1, i2, i3] : List Insight).length
            (RunState.mk [] none 0 []) i1) i2).processed insightId = true →
      insightId = i1.id ∨ insightId = i2.id := by
    intro insightId h
    rcases isInsightProcessed_processOne send now M _ _ i2 insightId h with h | h
    · exact Or.inl (hproc1 insightId h)
    · exact Or.inr h
  have hcp2 :
      (processOne send now M ([i1, i2, i3] : List Insight).length
        (processOne send now M ([i1, i2, i3] : List Insight).length
          (RunState.mk [] none 0 []) i1) i2).checkpoint = none ∨
      (processOne send now M ([i1, i2, i3] : List Insight).length
        (processOne send now M ([i1, i2, i3] : List Insight).length
          (RunState.mk [] none 0 []) i1) i2).checkpoint = some i1.publishedAt ∨
      (processOne send now M ([i1, i2, i3] : List Insight).length
        (processOne send now M ([i1, i2, i3] : List Insight).length
          (RunState.mk [] none 0 []) i1) i2).checkpoint = some i2.publishedAt := by
    rcases checkpoint_processOne send now M ([i1, i2, i3] : List Insight).length
        (processOne send now M ([i1, i2, i3] : List Insight).length
          (RunState.mk [] none 0 []) i1) i2 with h | h
    · rw [h]
      rcases hcp1 with h' | h'
      · exact Or.inl h'
      · exact Or.inr (Or.inl h')
    · exact Or.inr (Or.inr h)
  have k3 : keptForDelivery
      (processOne send now M ([i1, i2, i3] : List Insight).length
        (processOne send now M ([i1, i2, i3] : List Insight).length
          (RunState.mk [] none 0 []) i1) i2).processed
      (processOne send now M ([i1, i2, i3] : List Insight).length
        (processOne send now M ([i1, i2, i3] : List Insight).length
          (RunState.mk [] none 0 []) i1) i2).checkpoint i3 = true := by
    unfold keptForDelivery
    have hp : isInsightProcessed
        (processOne send now M ([i1, i2, i3] : List Insight).length
          (processOne send now M ([i1, i2, i3] : List Insight).length
            (RunState.mk [] none 0 []) i1) i2).processed i3.id = false := by
      cases hh : isInsightProcessed
          (processOne send now M ([i1, i2, i3] : List Insight).length
            (processOne send now M ([i1, i2, i3] : List Insight).length
              (RunState.mk [] none 0 []) i1) i2).processed i3.id
      · rfl
      · rcases hproc2 i3.id hh with h | h
        · exact absurd h (Ne.symm hne13)
        · exact absurd h (Ne.symm hne23)
    have hsk : skipByCheckpoint
        (processOne send now M ([i1, i2, i3] : List Insight).length
          (processOne send now M ([i1, i2, i3] : List Insight).length
            (RunState.mk [] none 0 []) i1) i2).checkpoint i3 = false := by
      rcases hcp2 with h | h | h
      · rw [h]; rfl
      · rw [h]
        simp only [skipByCheckpoint, decide_eq_false_iff_not, not_lt]
        omega
      · rw [h]
        simp only [skipByCheckpoint, decide_eq_false_iff_not, not_lt]
        omega
    rw [hp, hsk]
    rfl
  rw [attemptsOf_processOne, k3, attemptsOf_processOne, k2, attemptsOf_processOne, k1]
  simp [attemptsOf]

theorem deliveries_in_publication_order_witness :
    attemptsOf (processNewPublishedInsights (fun _ => true) 100 0 200 [] none
        [mkInsight "c" 3, mkInsight "b" 2, mkInsight "a" 1]).events
      = ["a", "b", "c"] :=
  deliveries_in_publication_order (fun _ => true) 100 0 200
    (mkInsight "a" 1) (mkInsight "b" 2) (mkInsight "c" 3)
    (by decide) (by decide) (by decide) (by decide) (by decide) (by decide)

/-- C6: in a batch of three eligible items where the send of item 2 fails,
items 1 and 3 are delivered and marked processed, item 2 is neither marked
processed nor allowed to move the checkpoint (it ends at item 3's
publication timestamp), and the batch is not aborted. -/
theorem failed_item_is_isolated (send : Insight → Bool) (now minAgeMs : Int) (M : Nat)
    (hM : 2 ≤ M) (i1 i2 i3 : Insight)
    (hne12 : i1.id ≠ i2.id) (hne13 : i1.id ≠ i3.id) (hne23 : i2.id ≠ i3.id)
    (hp12 : i1.publishedAt ≤ i2.publishedAt) (hp23 : i2.publishedAt ≤ i3.publishedAt)
    (hage : now - i3.publishedAt ≥ minAgeMs)
    (hs1 : send i1 = true) (hs2 : send i2 = false) (hs3 : send i3 = true) :
    isInsightProcessed (processNewPublishedInsights send now minAgeMs M [] none
        [i3, i2, i1]).processed i1.id = true ∧
    isInsightProcessed (processNewPublishedInsights send now minAgeMs M [] none
        [i3, i2, i1]).processed i2.id = false ∧
    isInsightProcessed (processNewPublishedInsights send now minAgeMs M [] none
        [i3, i2, i1]).processed i3.id = true ∧
    (processNewPublishedInsights send now minAgeMs M [] none
        [i3, i2, i1]).checkpoint = some i3.publishedAt ∧
    deliveredOf (processNewPublishedInsights send now minAgeMs M [] none
        [i3, i2, i1]).events = [i1.id, i3.id] := by
  have e1 : isOldEnough now minAgeMs i1 = true := by
    simp only [isOldEnough, ge_iff_le, decide_eq_true_eq]
    omega
  have e2 : isOldEnough now minAgeMs i2 = true := by
    simp only [isOldEnough, ge_iff_le, decide_eq_true_eq]
    omega
  have e3 : isOldEnough now minAgeMs i3 = true := by
    simp only [isOldEnough, ge_iff_le, decide_eq_true_eq]
    omega
  have hfil : (([i3, i2, i1] : List Insight).reverse.filter (isOldEnough now minAgeMs))
      = [i1, i2, i3] := by
    simp [e1, e2, e3]
  have hb12 : (i1.id == i2.id) = false := beq_eq_false_iff_ne.mpr hne12
  have hb13 : (i1.id == i3.id) = false := beq_eq_false_iff_ne.mpr hne13
  have hb32 : (i3.id == i2.id) = false := beq_eq_false_iff_ne.mpr (Ne.symm hne23)
  have hsk2 : skipByCheckpoint (some i1.publishedAt) i2 = false := by
    simp only [skipByCheckpoint, decide_eq_false_iff_not, not_lt]
    exact hp12
  have hsk3 : skipByCheckpoint (some i1.publishedAt) i3 = false := by
    simp only [skipByCheckpoint, decide_eq_false_iff_not, not_lt]
    exact le_trans hp12 hp23
  have step1 : processOne send now M ([i1, i2, i3] : List Insight).length
      (RunState.mk [] none 0 []) i1
      = RunState.mk [ProcessedEntry.obj i1.id now (metaOf i1)] (some i1.publishedAt) 1
          [Event.attempt i1.id, Event.delivered i1.id, Event.delay] := by
    unfold processOne
    simp [isInsightProcessed, skipByCheckpoint, hs1, addProcessedInsight,
      writeProcessedIds_singleton]
  have step2 : processOne send now M ([i1, i2, i3] : List Insight).length
      (RunState.mk [ProcessedEntry.obj i1.id now (metaOf i1)] (some i1.publishedAt) 1
        [Event.attempt i1.id, Event.delivered i1.id, Event.delay]) i2
      = RunState.mk [ProcessedEntry.obj i1.id now (metaOf i1)] (some i1.publishedAt) 1
          [Event.attempt i1.id, Event.delivered i1.id, Event.delay,
            Event.attempt i2.id] := by
    unfold processOne
    simp [isInsightProcessed, entryMatches, hb12, hsk2, hs2]
  have hw2 : writeProcessedIds M
      [ProcessedEntry.obj i1.id now (metaOf i1), ProcessedEntry.obj i3.id now (metaOf i3)]
      = [ProcessedEntry.obj i1.id now (metaOf i1),
          ProcessedEntry.obj i3.id now (metaOf i3)] := by
    apply writeProcessedIds_of_le
    simp only [List.length_cons, List.length_nil]
    omega
  have step3 : processOne send now M ([i1, i2, i3] : List Insight).length
      (RunState.mk [ProcessedEntry.obj i1.id now (metaOf i1)] (some i1.publishedAt) 1
        [Event.attempt i1.id, Event.delivered i1.id, Event.delay,
          Event.attempt i2.id]) i3
      = RunState.mk
          [ProcessedEntry.obj i1.id now (metaOf i1), ProcessedEntry.obj i3.id now (metaOf i3)]
          (some i3.publishedAt) 2
          [Event.attempt i1.id, Event.delivered i1.id, Event.delay, Event.attempt i2.id,
            Event.attempt i3.id, Event.delivered i3.id, Event.delay] := by
    unfold processOne
    simp [isInsightProcessed, entryMatches, hb13, hsk3, hs3, addProcessedInsight, hw2]
  unfold processNewPublishedInsights
  rw [hfil, List.foldl_cons, List.foldl_cons, List.foldl_cons, List.foldl_nil,
    step1, step2, step3]
  refine ⟨?_, ?_, ?_, rfl, ?_⟩
  · simp [isInsightProcessed, entryMatches]
  · simp [isInsightProcessed, entryMatches, hb12, hb32]
  · simp [isInsightProcessed, entryMatches]
  · simp [deliveredOf]

theorem failed_item_is_isolated_witness :
    isInsightProcessed (processNewPublishedInsights (fun i => !(i.id == "b")) 100 0 200 [] none
        [mkInsight "c" 3, mkInsight "b" 2, mkInsight "a" 1]).processed "a" = true ∧
    isInsightProcessed (processNewPublishedInsights (fun i => !(i.id == "b")) 100 0 200 [] none
        [mkInsight "c" 3, mkInsight "b" 2, mkInsight "a" 1]).processed "b" = false ∧
    isInsightProcessed (processNewPublishedInsights (fun i => !(i.id == "b")) 100 0 200 [] none
        [mkInsight "c" 3, mkInsight "b" 2, mkInsight "a" 1]).processed "c" = true ∧
    (processNewPublishedInsights (fun i => !(i.id == "b")) 100 0 200 [] none
        [mkInsight "c" 3, mkInsight "b" 2, mkInsight "a" 1]).checkpoint = some 3 ∧
    deliveredOf (processNewPublishedInsights (fun i => !(i.id == "b")) 100 0 200 [] none
        [mkInsight "c" 3, mkInsight "b" 2, mkInsight "a" 1]).events = ["a", "c"] :=
  failed_item_is_isolated (fun i => !(i.id == "b")) 100 0 200 (by decide)
    (mkInsight "a" 1) (mkInsight "b" 2) (mkInsight "c" 3)
    (by decide) (by decide) (by decide) (by decide) (by decide) (by decide)
    (by decide) (by decide) (by decide)

end PolarisBot
